import Mathlib

/-!
Verification of the CogLoop memory-weighting and activation engine.

This file gives a shallow embedding of the core components of the
repository (weight model, activation selector, identity assigner,
response parsing, think loop, recall/reinforcement batch operations)
and proves the specification claims about them.

Conventions of the embedding:
* Python floats are modelled as real numbers (`ℝ`) where transcendental
  functions occur (the weight formula uses `exp`), and as rationals
  (`ℚ`) elsewhere; every Python float value is a dyadic rational, so
  `ℚ` parameters cover all concrete float inputs.
* `datetime` values are modelled as real-valued epoch seconds where
  arithmetic on them occurs, and as opaque ISO strings where they are
  only stored.
* Side effects (store writes, wall-clock reads, network calls) are made
  explicit: clocks become `Nat → _` sequences of sampled values (the
  k-th call of `datetime.now()` returns sample `k`), the vector store
  becomes a lookup function, network calls become `Except`-valued
  oracles, and functions return the writes they perform.
-/

/-! ### Weight model: class MAM (src/src/mam.py) -/

/-- Session parameters of the memory anchor mechanism, fixed at
construction (src/src/mam.py, `MAM.__init__`). -/
structure MAM where
  beta : ℚ
  gamma : ℚ
  b : ℚ
  initial_weight : ℚ
  golden_ratio : ℚ

/-- Default construction parameters of `MAM` (src/src/mam.py lines 13-18). -/
def MAM.default : MAM :=
  { beta := 85/100, gamma := 3/10, b := 5/100
    initial_weight := 1/2, golden_ratio := 618/1000 }

/-- Embedding of `MAM.calculate_weight` (src/src/mam.py lines 36-72).
Times are epoch seconds; the source computes
`(current_time - last_access_time).total_seconds() / 3600`. -/
noncomputable def MAM.calculate_weight (m : MAM) (current_weight : ℝ)
    (last_access_time : ℝ) (current_time : ℝ) (access_count : ℤ) : ℝ :=
  if current_weight = 0 then (m.initial_weight : ℝ) - (m.b : ℝ)
  else
    let time_diff := (current_time - last_access_time) / 3600
    let time_decay := Real.exp (-(m.beta : ℝ) * time_diff)
    let access_boost := 1 + (m.gamma : ℝ) * (access_count : ℝ)
    let new_weight := current_weight * time_decay * access_boost - (m.b : ℝ)
    max 0 (min 1 new_weight)

/-- Clamping to the unit interval, as the spec words it ("clamped to
[0.0, 1.0]"); written with the opposite nesting from the source's
`max(0.0, min(1.0, x))` so that agreement is proved, not restated. -/
def clamp01 (x : ℝ) : ℝ := min 1 (max 0 x)

/-- Python `int()` applied to a number: truncation toward zero. -/
def pyInt (q : ℚ) : ℤ := if 0 ≤ q then ⌊q⌋ else ⌈q⌉

/-- Ranking value used by the selector: `float(x.get(sort_by, 0))`
(src/src/mam.py line 95); a missing key defaults to `0`. The dict
access is abstracted by a `get` function, matching Python duck typing. -/
def MAM.sortKey {α : Type} (get : α → String → Option ℚ) (sort_by : String)
    (x : α) : ℚ :=
  (get x sort_by).getD 0

/-- Descending-by-key ordering used by `sorted(..., key=..., reverse=True)`
in `MAM.select_activated_memories`. -/
abbrev sortRel {α : Type} (get : α → String → Option ℚ) (sort_by : String)
    (a b : α) : Prop :=
  MAM.sortKey get sort_by b ≤ MAM.sortKey get sort_by a

/-- Embedding of `MAM.select_activated_memories` (src/src/mam.py lines
74-105). Python `sorted(..., reverse=True)` is a stable descending
sort; `List.insertionSort` is also stable, and a stable sort of a list
under a total preorder is unique, so the two agree elementwise. -/
def MAM.select_activated_memories {α : Type} (m : MAM)
    (get : α → String → Option ℚ) (memories : List α)
    (sort_by : String) : List α :=
  if memories.isEmpty then []
  else
    let sorted_memories := memories.insertionSort (sortRel get sort_by)
    if sorted_memories.length = 1 then sorted_memories
    else
      sorted_memories.take
        (max 1 (pyInt ((sorted_memories.length : ℚ) * m.golden_ratio))).toNat

/-- A memory candidate as the selector sees it: a metadata dict with
numeric fields (the only values on which Python `float()` succeeds). -/
abbrev Memory : Type := List (String × ℚ)

/-- Dict lookup on a `Memory`. -/
def memGet : Memory → String → Option ℚ
  | [], _ => none
  | p :: rest, k => if p.1 = k then some p.2 else memGet rest k

/-- Concrete five-candidate example from the spec (golden_ratio 0.618,
five weighted candidates). -/
def mems5 : List Memory :=
  [ [("id", 1), ("weight", 7/10)]
  , [("id", 2), ("weight", 2/10)]
  , [("id", 3), ("weight", 9/10)]
  , [("id", 4), ("weight", 4/10)]
  , [("id", 5), ("weight", 6/10)] ]

/-- Construction parameters with a small `initial_weight` (smaller than
`b`); nothing in the source validates against this. -/
def MAM.lowInit : MAM :=
  { beta := 85/100, gamma := 3/10, b := 5/100
    initial_weight := 3/100, golden_ratio := 618/1000 }

/-! ### Identity assigner: vector_id (src/src/id_generator.py), built on
an executable SHA-256 (FIPS 180-4), the embedding of `hashlib.sha256` /
`.hexdigest()` used by the source. -/

/-- UTF-8 bytes of one character. -/
def utf8Char (c : Char) : List Nat :=
  let n := c.toNat
  if n < 128 then [n]
  else if n < 2048 then [192 + n / 64, 128 + n % 64]
  else if n < 65536 then [224 + n / 4096, 128 + (n / 64) % 64, 128 + n % 64]
  else [240 + n / 262144, 128 + (n / 4096) % 64, 128 + (n / 64) % 64, 128 + n % 64]

/-- UTF-8 encoding of a string, as Python `str.encode('utf-8')`. -/
def utf8Encode (s : String) : List Nat :=
  s.data.foldr (fun c acc => utf8Char c ++ acc) []

def w32 (n : Nat) : Nat := n % 4294967296

def ror32 (x n : Nat) : Nat := ((x >>> n) ||| (x <<< (32 - n))) % 4294967296

def shaCh (e f g : Nat) : Nat := (e &&& f) ^^^ ((e ^^^ 4294967295) &&& g)

def shaMaj (a b c : Nat) : Nat := (a &&& b) ^^^ (a &&& c) ^^^ (b &&& c)

def bigSigma0 (a : Nat) : Nat := ror32 a 2 ^^^ ror32 a 13 ^^^ ror32 a 22

def bigSigma1 (e : Nat) : Nat := ror32 e 6 ^^^ ror32 e 11 ^^^ ror32 e 25

def smallSigma0 (x : Nat) : Nat := ror32 x 7 ^^^ ror32 x 18 ^^^ (x >>> 3)

def smallSigma1 (x : Nat) : Nat := ror32 x 17 ^^^ ror32 x 19 ^^^ (x >>> 10)

/-- The 64 SHA-256 round constants (FIPS 180-4). -/
def shaK : List Nat :=
  [1116352408, 1899447441, 3049323471, 3921009573, 961987163,
   1508970993, 2453635748, 2870763221, 3624381080, 310598401,
   607225278, 1426881987, 1925078388, 2162078206, 2614888103,
   3248222580, 3835390401, 4022224774, 264347078, 604807628,
   770255983, 1249150122, 1555081692, 1996064986, 2554220882,
   2821834349, 2952996808, 3210313671, 3336571891, 3584528711,
   113926993, 338241895, 666307205, 773529912, 1294757372,
   1396182291, 1695183700, 1986661051, 2177026350, 2456956037,
   2730485921, 2820302411, 3259730800, 3345764771, 3516065817,
   3600352804, 4094571909, 275423344, 430227734, 506948616,
   659060556, 883997877, 958139571, 1322822218, 1537002063,
   1747873779, 1955562222, 2024104815, 2227730452, 2361852424,
   2428436474, 2756734187, 3204031479, 3329325298]

/-- SHA-256 working state: the eight 32-bit words. -/
structure ShaState where
  a : Nat
  b : Nat
  c : Nat
  d : Nat
  e : Nat
  f : Nat
  g : Nat
  h : Nat

def shaH0 : ShaState :=
  ⟨1779033703, 3144134277, 1013904242,
   2773480762, 1359893119, 2600822924,
   528734635, 1541459225⟩

/-- SHA-256 padding: append 0x80, zero bytes to 56 mod 64, then the
bit length as 8 big-endian bytes. -/
def shaPad (msg : List Nat) : List Nat :=
  let len := msg.length
  let bitLen := len * 8
  let zeros := (120 - ((len + 1) % 64)) % 64
  msg ++ 128 :: List.replicate zeros 0 ++
    [(bitLen >>> 56) % 256, (bitLen >>> 48) % 256, (bitLen >>> 40) % 256,
     (bitLen >>> 32) % 256, (bitLen >>> 24) % 256, (bitLen >>> 16) % 256,
     (bitLen >>> 8) % 256, bitLen % 256]

/-- Split into 64-byte chunks (fuel-indexed so that it reduces). -/
def chunksGo : Nat → List Nat → List (List Nat)
  | 0, _ => []
  | k+1, l => if l.isEmpty then [] else l.take 64 :: chunksGo k (l.drop 64)

def chunks64 (l : List Nat) : List (List Nat) := chunksGo l.length l

/-- Big-endian 32-bit words from bytes. -/
def beWords : List Nat → List Nat
  | b0 :: b1 :: b2 :: b3 :: rest =>
      (b0 * 16777216 + b1 * 65536 + b2 * 256 + b3) :: beWords rest
  | _ => []

/-- Extend the 16-word message schedule by `k` more words. -/
def extendW (ws : List Nat) : Nat → List Nat
  | 0 => ws
  | k+1 =>
      extendW
        (ws ++ [w32 (smallSigma1 (ws.getD (ws.length - 2) 0) +
          ws.getD (ws.length - 7) 0 +
          smallSigma0 (ws.getD (ws.length - 15) 0) +
          ws.getD (ws.length - 16) 0)]) k

def shaRound (st : ShaState) (k w : Nat) : ShaState :=
  let t1 := w32 (st.h + bigSigma1 st.e + shaCh st.e st.f st.g + k + w)
  let t2 := w32 (bigSigma0 st.a + shaMaj st.a st.b st.c)
  ⟨w32 (t1 + t2), st.a, st.b, st.c, w32 (st.d + t1), st.e, st.f, st.g⟩

def shaRounds (st : ShaState) : List (Nat × Nat) → ShaState
  | [] => st
  | kw :: rest => shaRounds (shaRound st kw.1 kw.2) rest

def shaCompress (st : ShaState) (chunk : List Nat) : ShaState :=
  let ws := extendW (beWords chunk) 48
  let t := shaRounds st (shaK.zip ws)
  ⟨w32 (st.a + t.a), w32 (st.b + t.b), w32 (st.c + t.c), w32 (st.d + t.d),
   w32 (st.e + t.e), w32 (st.f + t.f), w32 (st.g + t.g), w32 (st.h + t.h)⟩

def shaFold (st : ShaState) : List (List Nat) → ShaState
  | [] => st
  | c :: cs => shaFold (shaCompress st c) cs

def hexDigit (n : Nat) : Char :=
  if n < 10 then Char.ofNat (48 + n) else Char.ofNat (87 + n)

def hexWord (n : Nat) : List Char :=
  [hexDigit ((n >>> 28) % 16), hexDigit ((n >>> 24) % 16), hexDigit ((n >>> 20) % 16),
   hexDigit ((n >>> 16) % 16), hexDigit ((n >>> 12) % 16), hexDigit ((n >>> 8) % 16),
   hexDigit ((n >>> 4) % 16), hexDigit (n % 16)]

/-- Lowercase hex digest of SHA-256, as `hashlib.sha256(...).hexdigest()`. -/
def sha256hex (msg : List Nat) : List Char :=
  let fin := shaFold shaH0 (chunks64 (shaPad msg))
  hexWord fin.a ++ hexWord fin.b ++ hexWord fin.c ++ hexWord fin.d ++
    hexWord fin.e ++ hexWord fin.f ++ hexWord fin.g ++ hexWord fin.h

/-- Embedding of `vector_id` (src/src/id_generator.py lines 21-46). -/
def vector_id (set_id content : String) : String :=
  let combined := set_id ++ ":" ++ content
  String.mk ((sha256hex (utf8Encode combined)).take 32)

/-- Hex characters as `hexdigest()` produces them (lowercase). -/
def isHexChar (c : Char) : Bool :=
  (48 ≤ c.toNat && c.toNat ≤ 57) || (97 ≤ c.toNat && c.toNat ≤ 102)

/-! ### Response parsing: the parse step of CogletNet.think
(src/src/cogletnet/core/cogletnet.py lines 184-215) -/

/-- A parsed JSON value, the result type of `json.loads`. JSON integers
are the only numbers the claims involve; a JSON float would `str()` with
a decimal point and be dropped by `int()` exactly like any other
non-integer token. -/
inductive JVal where
  | jnull : JVal
  | jbool : Bool → JVal
  | jnum : Int → JVal
  | jstr : String → JVal
  | jarr : List JVal → JVal
  | jobj : List (String × JVal) → JVal

/-- Python truthiness of a parsed JSON value (`not result`). -/
def jfalsy : JVal → Bool
  | .jnull => true
  | .jbool b => !b
  | .jnum n => n = 0
  | .jstr s => s = ""
  | .jarr l => l.isEmpty
  | .jobj l => l.isEmpty

/-- `result.get(key, default)` on a parsed JSON object. -/
def jget (fs : List (String × JVal)) (k : String) (d : JVal) : JVal :=
  match fs with
  | [] => d
  | p :: rest => if p.1 = k then p.2 else jget rest k d

/-- ASCII decimal digit, the characters Python `int()` accepts. -/
def pyIsDigit (c : Char) : Bool := 48 ≤ c.toNat && c.toNat ≤ 57

/-- Base-10 digits of `n`, least significant first; fuel-indexed so the
definition reduces, `fuel ≥ n` suffices. -/
def digitsLE : Nat → Nat → List Nat
  | 0, _ => []
  | fuel+1, n => if n = 0 then [] else n % 10 :: digitsLE fuel (n / 10)

def digitChar (d : Nat) : Char := Char.ofNat (48 + d)

/-- Decimal representation of a natural number, as Python `str()`. -/
def natRepr (n : Nat) : List Char :=
  if n = 0 then ['0'] else (digitsLE n n).reverse.map digitChar

/-- Decimal representation of an integer, as Python `str()`. -/
def pyIntRepr : Int → List Char
  | .ofNat m => natRepr m
  | .negSucc m => '-' :: natRepr (m + 1)

mutual
/-- Python `str()` of a parsed JSON value (`str(idx)` in the source).
For strings it is the identity; containers render through `repr`. -/
def pyToStrChars : JVal → List Char
  | .jnull => ['N', 'o', 'n', 'e']
  | .jbool true => ['T', 'r', 'u', 'e']
  | .jbool false => ['F', 'a', 'l', 's', 'e']
  | .jnum n => pyIntRepr n
  | .jstr s => s.data
  | .jarr xs => '[' :: pyReprList xs ++ [']']
  | .jobj fs => '\x7b' :: pyReprFields fs ++ ['\x7d']

/-- Python `repr()` of a parsed JSON value, used when rendering
containers (string escaping inside nested containers is simplified;
the source only ever feeds the result to `int()`, which fails on any
bracketed or quoted form). -/
def pyReprChars : JVal → List Char
  | .jnull => ['N', 'o', 'n', 'e']
  | .jbool true => ['T', 'r', 'u', 'e']
  | .jbool false => ['F', 'a', 'l', 's', 'e']
  | .jnum n => pyIntRepr n
  | .jstr s => '\'' :: s.data ++ ['\'']
  | .jarr xs => '[' :: pyReprList xs ++ [']']
  | .jobj fs => '\x7b' :: pyReprFields fs ++ ['\x7d']

def pyReprList : List JVal → List Char
  | [] => []
  | [x] => pyReprChars x
  | x :: xs => pyReprChars x ++ ',' :: ' ' :: pyReprList xs

def pyReprFields : List (String × JVal) → List Char
  | [] => []
  | [p] => '\'' :: p.1.data ++ '\'' :: ':' :: ' ' :: pyReprChars p.2
  | p :: ps => '\'' :: p.1.data ++ '\'' :: ':' :: ' ' :: pyReprChars p.2 ++ ',' :: ' ' :: pyReprFields ps
end

/-- ASCII whitespace stripped by Python `int()`. -/
def pySpace (c : Char) : Bool :=
  c.toNat = 32 || c.toNat = 9 || c.toNat = 10 || c.toNat = 13 || c.toNat = 11 || c.toNat = 12

/-- Strip whitespace from both ends, as `int()` does before parsing. -/
def pyTrim (l : List Char) : List Char :=
  ((l.dropWhile pySpace).reverse.dropWhile pySpace).reverse

mutual
/-- Digit run with optional single underscores between digits, as
Python `int()` accepts (PEP 515). -/
def pyDigitsGo (acc : Nat) : List Char → Option Nat
  | [] => some acc
  | c :: rest =>
      if c.toNat = 95 then pyDigitsUnderscore acc rest
      else if pyIsDigit c then pyDigitsGo (acc * 10 + (c.toNat - 48)) rest
      else none

/-- After an underscore a digit must follow. -/
def pyDigitsUnderscore (acc : Nat) : List Char → Option Nat
  | [] => none
  | c :: rest =>
      if pyIsDigit c then pyDigitsGo (acc * 10 + (c.toNat - 48)) rest else none
end

def pyDigits : List Char → Option Nat
  | c :: rest => if pyIsDigit c then pyDigitsGo (c.toNat - 48) rest else none
  | [] => none

/-- Python `int(s)` on a string: strip whitespace, optional sign,
digit run; `none` models the `ValueError` raised for any other shape. -/
def pyIntOfChars (s : List Char) : Option Int :=
  match pyTrim s with
  | c :: rest =>
      if c.toNat = 43 then (pyDigits rest).map Int.ofNat
      else if c.toNat = 45 then (pyDigits rest).map (fun n => -(n : Int))
      else (pyDigits (c :: rest)).map Int.ofNat
  | [] => none

/-- Drop `pat` from the front of a list when it is a prefix. -/
def dropPre : List Char → List Char → Option (List Char)
  | [], l => some l
  | _ :: _, [] => none
  | p :: ps, c :: cs => if c = p then dropPre ps cs else none

/-- One pass of Python `str.replace(pat, "")`: remove every
non-overlapping occurrence of `pat`, left to right (fuel-indexed so the
definition reduces; the fuel is the input length). -/
def pyRemoveGo (pat : List Char) : Nat → List Char → List Char
  | 0, l => l
  | fuel+1, l =>
      match l with
      | [] => []
      | c :: cs =>
          match dropPre pat l with
          | some rest => pyRemoveGo pat fuel rest
          | none => c :: pyRemoveGo pat fuel cs

def pyRemove (pat l : List Char) : List Char := pyRemoveGo pat l.length l

/-- Python iteration over a parsed JSON value (`for idx in ...`): lists
iterate elements, strings iterate 1-character strings, dicts iterate
keys; numbers, booleans and null raise `TypeError` (`none`), which the
enclosing `try` of `CogletNet.think` catches. -/
def pyIter : JVal → Option (List JVal)
  | .jarr xs => some xs
  | .jstr s => some (s.data.map (fun c => .jstr (String.mk [c])))
  | .jobj fs => some (fs.map (fun p => .jstr p.1))
  | _ => none

/-- One entry of `activated_cog_ids` translated to a real coglet id
(src/src/cogletnet/core/cogletnet.py lines 192-198):
`int(str(idx).replace("ID=", ""))`, the 1-based bounds check, then
`activated[idx-1]`; `none` is a skipped entry (`continue` on
`ValueError`, or a failed bounds check). -/
def CogletNet.cogIdOfEntry (activated : List String) (idx : JVal) : Option String :=
  match pyIntOfChars (pyRemove ['I', 'D', '='] (pyToStrChars idx)) with
  | none => none
  | some n =>
      if 1 ≤ n ∧ n ≤ activated.length then activated.get? (n - 1).toNat else none

/-- The canonical think-result record (cogletnet.py lines 200-206);
`activated_cog_ids` holds real ids after translation. -/
structure ThinkRecord where
  next_thought : JVal
  activated_cog_ids : List String
  log : JVal
  generated_cog_texts : JVal
  function_calls : JVal

/-- The canonical empty record produced when parsing fails
(cogletnet.py lines 209-215). -/
def parseFailRecord : ThinkRecord :=
  { next_thought := .jstr ""
    activated_cog_ids := []
    log := .jstr "Parse response failed"
    generated_cog_texts := .jarr []
    function_calls := .jarr [] }

/-- Embedding of the response-parsing step of `CogletNet.think`
(cogletnet.py lines 184-215). The input is the outcome of
`json.loads(response)`: `none` when it raised, `some v` otherwise.
Any exception inside the `try` block falls to the canonical empty
record; `activated` is the ordered list of activated unit ids. -/
def CogletNet.parse_response (parsed : Option JVal) (activated : List String) :
    ThinkRecord :=
  match parsed with
  | none => parseFailRecord
  | some v =>
    if jfalsy v then parseFailRecord
    else
      match v with
      | .jobj fs =>
        match pyIter (jget fs "activated_cog_ids" (.jarr [])) with
        | none => parseFailRecord
        | some entries =>
          { next_thought := jget fs "next_thought" (.jstr "")
            activated_cog_ids := entries.filterMap (CogletNet.cogIdOfEntry activated)
            log := jget fs "log" (.jstr "")
            generated_cog_texts := jget fs "generated_cog_texts" (.jarr [])
            function_calls := jget fs "function_calls" (.jarr []) }
      | _ => parseFailRecord

/-! ### Think loop: CogletNet.think_loop (cogletnet.py lines 235-259) -/

/-- The loop body of `think_loop`: `k` is the cycle number (threading the
evolving hidden state of `think` through an oracle `think : cycle →
input → record`), `fuel` the remaining iterations. After each cycle the
loop stops if `next_thought` is falsy, else feeds it to the next cycle. -/
def CogletNet.think_loop_go (think : Nat → JVal → ThinkRecord) :
    Nat → Nat → JVal → List ThinkRecord
  | _, 0, _ => []
  | k, fuel+1, current =>
      let r := think k current
      if jfalsy r.next_thought then [r]
      else r :: CogletNet.think_loop_go think (k+1) fuel r.next_thought

/-- Embedding of `CogletNet.think_loop`. -/
def CogletNet.think_loop (think : Nat → JVal → ThinkRecord)
    (input_text : JVal) (max_iterations : Nat) : List ThinkRecord :=
  CogletNet.think_loop_go think 0 max_iterations input_text

/-! ### Recall path: VectorStore.search_similar (src/src/cogletnet/utils/
vector_store.py lines 292-333) and Coglets.recall (src/src/coglets.py
lines 206-229) -/

/-- One hit as returned by the external similarity service
(`self.index.query`). -/
structure QueryHit where
  id : String
  data : String
  metadata : List (String × JVal)
  score : ℚ

/-- One element of the list `search_similar` returns (vector_store.py
lines 322-330). -/
structure SearchResult where
  coglet_id : String
  id : String
  content : String
  metadata : List (String × JVal)
  score : ℚ

/-- Embedding of `VectorStore._process_metadata` (vector_store.py lines
335-358): system keys pass through, string values go through a
`json.loads` attempt (`jloads`, `none` modelling `JSONDecodeError`)
falling back to the raw string. -/
def VectorStore.process_metadata (jloads : String → Option JVal)
    (md : List (String × JVal)) : List (String × JVal) :=
  md.map (fun p =>
    if p.1 = "set_id" ∨ p.1 = "created_at" ∨ p.1 = "updated_at" then p
    else
      match p.2 with
      | .jstr s => (p.1, (jloads s).getD (.jstr s))
      | v => (p.1, v))

/-- The output dict built per hit (vector_store.py lines 323-329). -/
def VectorStore.toSearchResult (jloads : String → Option JVal)
    (r : QueryHit) : SearchResult :=
  { coglet_id := r.id, id := r.id, content := r.data
    metadata := VectorStore.process_metadata jloads r.metadata
    score := r.score }

/-- Embedding of `VectorStore.search_similar` (vector_store.py lines
292-333). `queryAttempt k` is the outcome of the k-th `self.index.query`
call: `.error` a raised transport exception, `.ok` a result list. The
body sleeps, queries up to twice (retrying once when the first attempt
returns no results), and the enclosing `except Exception` turns any
exception into an empty list — hence the `.ok` result type is total. -/
def VectorStore.search_similar (jloads : String → Option JVal)
    (queryAttempt : Nat → Except String (List QueryHit)) :
    Except String (List SearchResult) :=
  match queryAttempt 0 with
  | .error _ => .ok []
  | .ok r0 =>
    if r0.isEmpty then
      match queryAttempt 1 with
      | .error _ => .ok []
      | .ok r1 => .ok (r1.map (VectorStore.toSearchResult jloads))
    else .ok (r0.map (VectorStore.toSearchResult jloads))

/-- Top-level numeric field access on a `SearchResult`, as
`select_activated_memories`' duck-typed `x.get(sort_by, 0)` sees these
dicts: `score` is the only numeric top-level field; in particular
`weight` is absent at top level (it sits inside `metadata`). -/
def searchResultGet (r : SearchResult) (k : String) : Option ℚ :=
  if k = "score" then some r.score else none

/-- Embedding of `Coglets.recall` (coglets.py lines 206-229): an
uncaught exception from `search_similar` would propagate (the `.error`
branch), and the activated subset is selected over the results. -/
def Coglets.recall (mam : MAM) (jloads : String → Option JVal)
    (queryAttempt : Nat → Except String (List QueryHit)) :
    Except String (List SearchResult × List SearchResult) :=
  match VectorStore.search_similar jloads queryAttempt with
  | .error e => .error e
  | .ok results =>
      .ok (results, mam.select_activated_memories searchResultGet results "weight")

/-! ### Reinforcement batch: Coglets.update_weight / update_weights
(src/src/coglets.py lines 146-204) -/

/-- The stored metadata of one coglet as `update_weight` reads it
(`float(metadata["weight"])`, `fromisoformat(metadata["last_access"])`,
`int(metadata["access_count"])`). A coglet whose fetch or metadata
decoding raises is modelled as absent from the store lookup. -/
structure CogMeta where
  weight : ℝ
  last_access : ℝ
  access_count : ℤ

/-- The updated metadata written back by `update_weight` (coglets.py
lines 166-176). -/
noncomputable def Coglets.update_weight_meta (mam : MAM) (md : CogMeta) (t : ℝ) : CogMeta :=
  { weight := mam.calculate_weight md.weight md.last_access t md.access_count
    last_access := t
    access_count := md.access_count + 1 }

/-- Embedding of `Coglets.update_weight` (coglets.py lines 146-180):
returns the success flag and the write it performed, if any. `store` is
the fetch (`none` = `get` raised, caught by the `except`); `updateOk`
whether `update_coglet` succeeded; `now` the `datetime.now()` sample
taken only when `current_time` is `None`. -/
noncomputable def Coglets.update_weight (mam : MAM) (store : String → Option CogMeta)
    (updateOk : String → Bool) (coglet_id : String)
    (current_time : Option ℝ) (now : ℝ) : Bool × Option (String × CogMeta) :=
  match store coglet_id with
  | none => (false, none)
  | some md =>
      let t := current_time.getD now
      if updateOk coglet_id then
        (true, some (coglet_id, Coglets.update_weight_meta mam md t))
      else (false, none)

/-- The loop of `update_weights`, accumulating successful ids in input
order together with the writes performed. -/
noncomputable def Coglets.update_weights_go (mam : MAM) (store : String → Option CogMeta)
    (updateOk : String → Bool) (t : ℝ) (now : ℝ) :
    List String → List String × List (String × CogMeta)
  | [] => ([], [])
  | id :: rest =>
      let r := Coglets.update_weight mam store updateOk id (some t) now
      let acc := Coglets.update_weights_go mam store updateOk t now rest
      (if r.1 then id :: acc.1 else acc.1, r.2.toList ++ acc.2)

/-- Embedding of `Coglets.update_weights` (coglets.py lines 182-204):
`current_time = current_time or datetime.now()` is evaluated once —
wall-clock sample 0 — and that single snapshot is passed to every
`update_weight` call. -/
noncomputable def Coglets.update_weights (mam : MAM) (store : String → Option CogMeta)
    (updateOk : String → Bool) (coglet_ids : List String)
    (current_time : Option ℝ) (nows : Nat → ℝ) :
    List String × List (String × CogMeta) :=
  Coglets.update_weights_go mam store updateOk
    (current_time.getD (nows 0)) (nows 1) coglet_ids

/-! ### Coglet creation: Coglets.add / add_batch (coglets.py lines
69-132) and VectorStore.add_coglet (vector_store.py lines 99-140) -/

/-- Primitive metadata values; exactly the values `add_coglet` stores
unchanged (non-primitive values are JSON-encoded strings, which the
claims do not touch). -/
inductive MVal where
  | mnum : ℚ → MVal
  | mstr : String → MVal
  | mbool : Bool → MVal

/-- A metadata dict, by its lookup semantics. -/
abbrev MDict : Type := String → Option MVal

/-- The dict literal built by `Coglets.add` (coglets.py lines 87-91) and
per item of `add_batch` (lines 119-123), merged with the caller's
metadata via `dict.update`, under which the caller's value wins.
`now_iso` is the ISO string of the wall-clock sample taken for the
literal. -/
def Coglets.add_user_metadata (mam : MAM) (now_iso : String) (metadata : MDict) : MDict :=
  fun k =>
    match metadata k with
    | some v => some v
    | none =>
        if k = "weight" then some (.mnum mam.initial_weight)
        else if k = "last_access" then some (.mstr now_iso)
        else if k = "access_count" then some (.mnum 0)
        else none

/-- The metadata written by `VectorStore.add_coglet` (vector_store.py
lines 117-128): system fields `set_id` and `created_at` first, then the
caller's entries assigned over them. -/
def VectorStore.add_coglet_metadata (set_id created_iso : String) (metadata : MDict) : MDict :=
  fun k =>
    match metadata k with
    | some v => some v
    | none =>
        if k = "set_id" then some (.mstr set_id)
        else if k = "created_at" then some (.mstr created_iso)
        else none

/-- Embedding of `VectorStore.add_coglet`: the stored unit
(id, content, metadata); the id is `vector_id(set_id, content)`. -/
def VectorStore.add_coglet (set_id content : String) (metadata : MDict)
    (created_iso : String) : String × String × MDict :=
  (vector_id set_id content, content,
    VectorStore.add_coglet_metadata set_id created_iso metadata)

/-- Embedding of `Coglets.add` (coglets.py lines 69-99); `nows` is the
sequence of `datetime.now().isoformat()` samples: call 0 in `add`,
call 1 in `add_coglet`. -/
def Coglets.add (mam : MAM) (set_id content : String) (metadata : MDict)
    (nows : Nat → String) : String × String × MDict :=
  VectorStore.add_coglet set_id content
    (Coglets.add_user_metadata mam (nows 0) metadata) (nows 1)

/-- The loop of `add_batch` over items paired with `add_coglets`:
item `i` gets wall-clock sample `i` for its `last_access` default and
sample `total + i` for `created_at` (`add_batch` samples the clock once
per item while building metadata, then `add_coglets` samples it once
per item while building vectors). -/
def Coglets.add_batch_go (mam : MAM) (set_id : String) (nows : Nat → String)
    (total : Nat) : Nat → List (String × MDict) → List (String × String × MDict)
  | _, [] => []
  | i, item :: rest =>
      VectorStore.add_coglet set_id item.1
        (Coglets.add_user_metadata mam (nows i) item.2) (nows (total + i)) ::
      Coglets.add_batch_go mam set_id nows total (i+1) rest

/-- Embedding of `Coglets.add_batch` (coglets.py lines 101-132) composed
with `VectorStore.add_coglets` (vector_store.py lines 142-184). -/
def Coglets.add_batch (mam : MAM) (set_id : String)
    (items : List (String × MDict)) (nows : Nat → String) :
    List (String × String × MDict) :=
  Coglets.add_batch_go mam set_id nows items.length 0 items

/-! ### Theorems: weight model and activation selector -/

theorem clamp01_eq_max_min (x : ℝ) : max 0 (min 1 x) = clamp01 x := by
  unfold clamp01
  rw [max_min_distrib_left, max_eq_right (zero_le_one)]

theorem max_one_pyInt (q : ℚ) : max 1 (pyInt q) = max 1 ⌊q⌋ := by
  unfold pyInt
  split
  · rfl
  · rename_i h
    push_neg at h
    rw [max_eq_left, max_eq_left]
    · exact le_trans (Int.floor_nonpos h.le) (by norm_num)
    · refine le_trans (Int.ceil_le.mpr ?_) (by norm_num : (0:ℤ) ≤ 1)
      exact_mod_cast h.le

/-- C1: `MAM.calculate_weight` returns `initial_weight - b` exactly when
`current_weight == 0`, and otherwise returns
`current_weight * exp(-beta * Δt_hours) * (1 + gamma * access_count) - b`
clamped to [0, 1], where `Δt_hours` is the elapsed time in hours. -/
theorem C1_calculate_weight_formula (m : MAM)
    (current_weight last_access_time current_time : ℝ) (access_count : ℤ) :
    (current_weight = 0 →
      m.calculate_weight current_weight last_access_time current_time access_count =
        (m.initial_weight : ℝ) - (m.b : ℝ)) ∧
    (current_weight ≠ 0 →
      m.calculate_weight current_weight last_access_time current_time access_count =
        clamp01 (current_weight *
          Real.exp (-(m.beta : ℝ) * ((current_time - last_access_time) / 3600)) *
          (1 + (m.gamma : ℝ) * (access_count : ℝ)) - (m.b : ℝ))) := by
  constructor
  · intro h
    simp [MAM.calculate_weight, h]
  · intro h
    unfold MAM.calculate_weight
    rw [if_neg h]
    exact clamp01_eq_max_min _

/-- Witness for C1: with the default session parameters
(`initial_weight = 0.5`, `b = 0.05`), `compute(0, t, t, 0) = 0.45`. -/
theorem C1_calculate_weight_formula_witness :
    MAM.default.calculate_weight 0 0 0 0 = (45/100 : ℝ) := by
  have h := (C1_calculate_weight_formula MAM.default 0 0 0 0).1 rfl
  rw [h]
  norm_num [MAM.default]

/-- C2 (amended): when `current_weight ≠ 0` the result of
`MAM.calculate_weight` is clamped into [0, 1]; in the first-time branch
(`current_weight == 0`) the result is `initial_weight - b`, unclamped. -/
theorem C2_weight_bounds (m : MAM)
    (current_weight last_access_time current_time : ℝ) (access_count : ℤ) :
    (current_weight ≠ 0 →
      0 ≤ m.calculate_weight current_weight last_access_time current_time access_count ∧
      m.calculate_weight current_weight last_access_time current_time access_count ≤ 1) ∧
    (current_weight = 0 →
      m.calculate_weight current_weight last_access_time current_time access_count =
        (m.initial_weight : ℝ) - (m.b : ℝ)) := by
  constructor
  · intro h
    unfold MAM.calculate_weight
    rw [if_neg h]
    exact ⟨le_max_left 0 _, max_le zero_le_one (min_le_left 1 _)⟩
  · intro h
    simp [MAM.calculate_weight, h]

/-- Witness for C2 (amended), at `current_weight = 1`. -/
theorem C2_weight_bounds_witness :
    0 ≤ MAM.default.calculate_weight 1 0 0 0 ∧
    MAM.default.calculate_weight 1 0 0 0 ≤ 1 :=
  (C2_weight_bounds MAM.default 1 0 0 0).1 one_ne_zero

/-- Counterexample to C2 as stated: in the first-time-creation branch the
result is not clamped, so with `initial_weight = 0.03` and `b = 0.05`
(admissible construction parameters; nothing validates them) the returned
weight is negative, outside [0.0, 1.0]. -/
theorem C2_weight_bounds_counterexample :
    MAM.lowInit.calculate_weight 0 0 0 0 < 0 := by
  have h : MAM.lowInit.calculate_weight 0 0 0 0 =
      ((3/100 : ℚ) : ℝ) - ((5/100 : ℚ) : ℝ) := by
    simp [MAM.calculate_weight, MAM.lowInit]
  rw [h]
  norm_num

theorem sortRel_total {α : Type} (get : α → String → Option ℚ) (sort_by : String) :
    IsTotal α (sortRel get sort_by) :=
  ⟨fun a b => le_total (MAM.sortKey get sort_by b) (MAM.sortKey get sort_by a)⟩

theorem sortRel_trans {α : Type} (get : α → String → Option ℚ) (sort_by : String) :
    IsTrans α (sortRel get sort_by) :=
  ⟨fun _ _ _ hab hbc => le_trans hbc hab⟩

theorem select_sublist_sorted (m : MAM) {α : Type}
    (get : α → String → Option ℚ) (sort_by : String) (memories : List α) :
    List.Sublist (MAM.select_activated_memories m get memories sort_by)
      (memories.insertionSort (sortRel get sort_by)) := by
  simp only [MAM.select_activated_memories]
  split
  · exact List.nil_sublist _
  · split
    · exact List.Sublist.refl _
    · exact List.take_sublist _ _

/-- C3: select returns [] on [], a singleton unchanged, and for N ≥ 2 the
first max(1, floor(N * golden_ratio)) items of the candidates sorted
descending by the ranking key. -/
theorem C3_select_golden_cut (m : MAM) {α : Type}
    (get : α → String → Option ℚ) (sort_by : String) :
    MAM.select_activated_memories m get [] sort_by = [] ∧
    (∀ x : α, MAM.select_activated_memories m get [x] sort_by = [x]) ∧
    (∀ memories : List α, 2 ≤ memories.length →
      ∃ sorted : List α,
        memories.Perm sorted ∧
        sorted.Sorted (sortRel get sort_by) ∧
        MAM.select_activated_memories m get memories sort_by =
          sorted.take (max 1 ⌊(memories.length : ℚ) * m.golden_ratio⌋).toNat) := by
  refine ⟨rfl, ?_, ?_⟩
  · intro x
    simp [MAM.select_activated_memories, List.insertionSort, List.orderedInsert]
  · intro memories h2
    haveI := sortRel_total get sort_by
    haveI := sortRel_trans get sort_by
    refine ⟨memories.insertionSort (sortRel get sort_by),
      (List.perm_insertionSort _ _).symm, List.sorted_insertionSort _ _, ?_⟩
    have hlen : (memories.insertionSort (sortRel get sort_by)).length = memories.length :=
      List.length_insertionSort _ _
    have hne : ¬ memories.isEmpty := by
      cases memories
      · simp at h2
      · simp
    have hn1 : memories.length ≠ 1 := by omega
    simp only [MAM.select_activated_memories, hne, if_false, hlen, hn1, ite_false,
      max_one_pyInt, Bool.false_eq_true]

/-- Witness for C3: five weighted candidates at golden_ratio 0.618
activate exactly the three highest-weighted, in descending order. -/
theorem C3_select_golden_cut_witness :
    2 ≤ mems5.length ∧
    (∃ sorted : List Memory,
      mems5.Perm sorted ∧ sorted.Sorted (sortRel memGet "weight") ∧
      MAM.select_activated_memories MAM.default memGet mems5 "weight" =
        sorted.take (max 1 ⌊(mems5.length : ℚ) * MAM.default.golden_ratio⌋).toNat) ∧
    MAM.select_activated_memories MAM.default memGet mems5 "weight" =
      [ [("id", 3), ("weight", 9/10)]
      , [("id", 1), ("weight", 7/10)]
      , [("id", 5), ("weight", 6/10)] ] :=
  ⟨by simp [mems5],
   (C3_select_golden_cut MAM.default memGet "weight").2.2 mems5 (by simp [mems5]),
   by
    norm_num +decide [MAM.select_activated_memories, MAM.default, mems5,
      List.insertionSort, List.orderedInsert, MAM.sortKey, memGet, pyInt]
    rfl⟩

/-- Counterexample to C4 as stated: an item lacking the ranking key is
not excluded from ranking; a sole keyless candidate is activated. -/
theorem C4_missing_key_counterexample :
    memGet ([] : Memory) "weight" = none ∧
    MAM.select_activated_memories MAM.default memGet [([] : Memory)] "weight" =
      [([] : Memory)] :=
  ⟨rfl, by
    norm_num +decide [MAM.select_activated_memories, MAM.default,
      List.insertionSort, List.orderedInsert]⟩

/-- C4 (amended): an item lacking the ranking key participates in ranking
with default value 0 and can appear in the activated output; the output is
a subset of the input and is ordered descending by the defaulted key, so a
keyless item never ranks above an item with a positive key value. -/
theorem C4_missing_key_defaults_zero (m : MAM) {α : Type}
    (get : α → String → Option ℚ) (sort_by : String) (memories : List α) :
    (∀ x ∈ MAM.select_activated_memories m get memories sort_by, x ∈ memories) ∧
    (MAM.select_activated_memories m get memories sort_by).Sorted
      (sortRel get sort_by) ∧
    (∀ x : α, get x sort_by = none → MAM.sortKey get sort_by x = 0) := by
  haveI := sortRel_total get sort_by
  haveI := sortRel_trans get sort_by
  refine ⟨?_, ?_, ?_⟩
  · intro x hx
    exact (List.perm_insertionSort _ _).subset
      ((select_sublist_sorted m get sort_by memories).subset hx)
  · exact List.Pairwise.sublist (select_sublist_sorted m get sort_by memories)
      (List.sorted_insertionSort _ _)
  · intro x h
    simp [MAM.sortKey, h]

/-- Witness for C4 (amended): the keyless candidate has ranking value 0. -/
theorem C4_missing_key_defaults_zero_witness :
    MAM.sortKey memGet "weight" ([] : Memory) = 0 :=
  (C4_missing_key_defaults_zero MAM.default memGet "weight"
    [([] : Memory)]).2.2 [] rfl

theorem isHexChar_hexDigit (k : Nat) (h : k < 16) : isHexChar (hexDigit k) = true := by
  interval_cases k <;> decide

theorem sha256hex_length (msg : List Nat) : (sha256hex msg).length = 64 := by
  simp [sha256hex, hexWord]

theorem hexWord_mem (n : Nat) : ∀ c ∈ hexWord n, isHexChar c = true := by
  intro c hc
  simp only [hexWord, List.mem_cons, List.not_mem_nil, or_false] at hc
  rcases hc with h|h|h|h|h|h|h|h <;>
    (subst h; exact isHexChar_hexDigit _ (Nat.mod_lt _ (by norm_num)))

/-- C5: `vector_id` is a pure function of `(set_id, content)`: identical
inputs give identical ids; the id is the SHA-256 hex digest of
`"set_id:content"` truncated to 32 hex characters, and the id returned
by `Coglets.add` for a `(set_id, content)` pair is exactly this value,
independent of metadata and of the wall clock (idempotent insertion). -/
theorem C5_vector_id_deterministic (set_id content : String) :
    (∀ s c : String, s = set_id → c = content →
      vector_id s c = vector_id set_id content) ∧
    (vector_id set_id content).length = 32 ∧
    (∀ ch ∈ (vector_id set_id content).data, isHexChar ch = true) ∧
    vector_id set_id content =
      String.mk ((sha256hex (utf8Encode (set_id ++ ":" ++ content))).take 32) ∧
    (∀ (mam : MAM) (metadata : MDict) (nows : Nat → String),
      (Coglets.add mam set_id content metadata nows).1 = vector_id set_id content) := by
  refine ⟨?_, ?_, ?_, rfl, ?_⟩
  · intro s c hs hc
    rw [hs, hc]
  · show (String.mk _).length = 32
    simp [String.length, vector_id, List.length_take, sha256hex_length]
  · intro ch hch
    have : ch ∈ sha256hex (utf8Encode (set_id ++ ":" ++ content)) := by
      have := List.take_sublist 32 (sha256hex (utf8Encode (set_id ++ ":" ++ content)))
      exact this.subset hch
    revert this
    simp only [sha256hex]
    intro hmem
    simp only [List.mem_append] at hmem
    rcases hmem with ((((((h|h)|h)|h)|h)|h)|h)|h <;> exact hexWord_mem _ _ h
  · intro mam metadata nows
    rfl

set_option maxRecDepth 100000 in
/-- Witness for C5: concrete digests (cross-checked against
`hashlib.sha256`), and distinct inputs giving distinct ids. -/
theorem C5_vector_id_deterministic_witness :
    (vector_id "setA" "hello").length = 32 ∧
    vector_id "setA" "hello" = "deaf5b734a3ac1d0e3d3ca665f5e5ff9" ∧
    vector_id "setA" "hello2" = "f1a7a256ba7bb009421b044bcc6da9a2" ∧
    vector_id "setB" "hello" = "7d2c90591d619fe730149748e1d0842d" ∧
    vector_id "setA" "hello" ≠ vector_id "setA" "hello2" ∧
    vector_id "setA" "hello" ≠ vector_id "setB" "hello" :=
  ⟨(C5_vector_id_deterministic "setA" "hello").2.1,
   by decide, by decide, by decide, by decide, by decide⟩

theorem digitsLE_val : ∀ (fuel n : Nat), n ≤ fuel →
    (digitsLE fuel n).foldr (fun d a => d + 10 * a) 0 = n := by
  intro fuel
  induction fuel with
  | zero => intro n hn; interval_cases n; rfl
  | succ fuel ih =>
    intro n hn
    by_cases h0 : n = 0
    · subst h0; simp [digitsLE]
    · have hdiv : n / 10 ≤ fuel := by
        have := Nat.div_lt_self (Nat.pos_of_ne_zero h0) (by norm_num : 1 < 10)
        omega
      simp only [digitsLE, h0, if_false, List.foldr_cons, ih _ hdiv]
      omega

theorem digitsLE_lt : ∀ (fuel n d : Nat), d ∈ digitsLE fuel n → d < 10 := by
  intro fuel
  induction fuel with
  | zero => intro n d hd; simp [digitsLE] at hd
  | succ fuel ih =>
    intro n d hd
    by_cases h0 : n = 0
    · subst h0; simp [digitsLE] at hd
    · simp only [digitsLE, h0, if_false] at hd
      rcases List.mem_cons.mp hd with h | h
      · subst h; exact Nat.mod_lt _ (by norm_num)
      · exact ih _ _ h

theorem digitChar_toNat (d : Nat) (h : d < 10) : (digitChar d).toNat = 48 + d := by
  interval_cases d <;> decide

theorem natRepr_good (n : Nat) : ∀ c ∈ natRepr n, 48 ≤ c.toNat ∧ c.toNat ≤ 57 := by
  intro c hc
  unfold natRepr at hc
  split at hc
  · simp at hc
    subst hc
    decide
  · simp only [List.mem_map, List.mem_reverse] at hc
    obtain ⟨d, hd, hdc⟩ := hc
    have h10 := digitsLE_lt _ _ _ hd
    rw [← hdc, digitChar_toNat d h10]
    omega

theorem natRepr_ne_nil (n : Nat) : natRepr n ≠ [] := by
  unfold natRepr
  split
  · simp
  · rename_i h0
    cases n with
    | zero => exact absurd rfl h0
    | succ m => simp [digitsLE]

theorem pyDigitsGo_digits : ∀ (l : List Char) (acc : Nat),
    (∀ c ∈ l, 48 ≤ c.toNat ∧ c.toNat ≤ 57) →
    pyDigitsGo acc l = some (l.foldl (fun a c => a * 10 + (c.toNat - 48)) acc) := by
  intro l
  induction l with
  | nil => intro acc _; rfl
  | cons c rest ih =>
    intro acc h
    have hc := h c (List.mem_cons_self _ _)
    have h95 : ¬ c.toNat = 95 := by omega
    have hdig : pyIsDigit c = true := by
      simp only [pyIsDigit, Bool.and_eq_true, decide_eq_true_eq]
      omega
    simp only [pyDigitsGo, h95, if_false, hdig, if_true, List.foldl_cons]
    exact ih _ (fun x hx => h x (List.mem_cons_of_mem _ hx))

theorem pyDigits_digits (l : List Char) (hne : l ≠ [])
    (h : ∀ c ∈ l, 48 ≤ c.toNat ∧ c.toNat ≤ 57) :
    pyDigits l = some (l.foldl (fun a c => a * 10 + (c.toNat - 48)) 0) := by
  cases l with
  | nil => exact absurd rfl hne
  | cons c rest =>
    have hc := h c (List.mem_cons_self _ _)
    have hdig : pyIsDigit c = true := by
      simp only [pyIsDigit, Bool.and_eq_true, decide_eq_true_eq]
      omega
    simp only [pyDigits, hdig, if_true, List.foldl_cons]
    rw [pyDigitsGo_digits rest _ (fun x hx => h x (List.mem_cons_of_mem _ hx))]
    norm_num

theorem foldl_rev_digits : ∀ (ds : List Nat) (a : Nat), (∀ d ∈ ds, d < 10) →
    ((ds.reverse.map digitChar).foldl (fun x c => x * 10 + (c.toNat - 48)) a) =
      ds.foldr (fun d x => d + 10 * x) a := by
  intro ds
  induction ds with
  | nil => intro a _; rfl
  | cons d rest ih =>
    intro a h
    have hd : d < 10 := h d (List.mem_cons_self _ _)
    rw [List.reverse_cons, List.map_append, List.foldl_append,
      ih a (fun x hx => h x (List.mem_cons_of_mem _ hx))]
    simp only [List.map_cons, List.map_nil, List.foldl_cons, List.foldl_nil, List.foldr_cons]
    rw [digitChar_toNat d hd]
    omega

theorem pyDigits_natRepr (n : Nat) : pyDigits (natRepr n) = some n := by
  by_cases h0 : n = 0
  · subst h0; decide
  · rw [pyDigits_digits _ (natRepr_ne_nil n) (natRepr_good n)]
    unfold natRepr
    rw [if_neg h0, foldl_rev_digits _ 0 (fun d hd => digitsLE_lt _ _ _ hd),
      digitsLE_val n n le_rfl]

theorem dropWhile_pySpace_eq_self (l : List Char)
    (h : ∀ c ∈ l, pySpace c = false) : l.dropWhile pySpace = l := by
  cases l with
  | nil => rfl
  | cons c rest => simp [List.dropWhile_cons, h c (List.mem_cons_self _ _)]

theorem pyTrim_eq_self (l : List Char) (h : ∀ c ∈ l, pySpace c = false) :
    pyTrim l = l := by
  unfold pyTrim
  rw [dropWhile_pySpace_eq_self l h,
    dropWhile_pySpace_eq_self l.reverse (fun c hc => h c (List.mem_reverse.mp hc)),
    List.reverse_reverse]

theorem good_not_space (c : Char) (h : 48 ≤ c.toNat ∧ c.toNat ≤ 57) :
    pySpace c = false := by
  simp only [pySpace, Bool.or_eq_false_iff, decide_eq_false_iff_not]
  omega

theorem pyIntOfChars_repr (n : Int) : pyIntOfChars (pyIntRepr n) = some n := by
  cases n with
  | ofNat m =>
    show pyIntOfChars (natRepr m) = some (Int.ofNat m)
    have hgood := natRepr_good m
    unfold pyIntOfChars
    rw [pyTrim_eq_self _ (fun c hc => good_not_space c (hgood c hc))]
    obtain ⟨c, rest, hcr⟩ : ∃ c rest, natRepr m = c :: rest := by
      cases hh : natRepr m with
      | nil => exact absurd hh (natRepr_ne_nil m)
      | cons c rest => exact ⟨c, rest, rfl⟩
    rw [hcr]
    have hc := hgood c (by rw [hcr]; exact List.mem_cons_self _ _)
    have h43 : ¬ c.toNat = 43 := by omega
    have h45 : ¬ c.toNat = 45 := by omega
    simp only [h43, if_false, h45]
    rw [← hcr, pyDigits_natRepr]
    rfl
  | negSucc m =>
    show pyIntOfChars ('-' :: natRepr (m + 1)) = some (Int.negSucc m)
    have hgood := natRepr_good (m + 1)
    have hsp : ∀ c ∈ '-' :: natRepr (m + 1), pySpace c = false := by
      intro c hc
      rcases List.mem_cons.mp hc with h | h
      · subst h; decide
      · exact good_not_space c (hgood c h)
    unfold pyIntOfChars
    rw [pyTrim_eq_self _ hsp]
    have h43 : ¬ ('-').toNat = 43 := by decide
    have h45 : ('-').toNat = 45 := by decide
    simp only [h43, if_false, h45, if_true, pyDigits_natRepr, Option.map_some]
    norm_num [Int.negSucc_eq]

theorem pyRemoveGo_no_I : ∀ (fuel : Nat) (l : List Char), l.length ≤ fuel →
    (∀ c ∈ l, ¬ c.toNat = 73) → pyRemoveGo ['I', 'D', '='] fuel l = l := by
  intro fuel
  induction fuel with
  | zero => intro l _ _; rfl
  | succ fuel ih =>
    intro l hl h
    cases l with
    | nil => rfl
    | cons c cs =>
      have hcI : ¬ c = 'I' := by
        intro hc
        exact h c (List.mem_cons_self _ _) (by rw [hc]; decide)
      have hdrop : dropPre ['I', 'D', '='] (c :: cs) = none := by
        simp [dropPre, hcI]
      simp only [pyRemoveGo, hdrop]
      exact congrArg (List.cons c)
        (ih cs
          (by
            have h2 : cs.length + 1 ≤ fuel + 1 := by simpa using hl
            omega)
          (fun x hx => h x (List.mem_cons_of_mem _ hx)))

theorem pyIntRepr_no_I (n : Int) : ∀ c ∈ pyIntRepr n, ¬ c.toNat = 73 := by
  intro c hc
  cases n with
  | ofNat m =>
    have := natRepr_good m c hc
    omega
  | negSucc m =>
    rcases List.mem_cons.mp hc with h | h
    · subst h; decide
    · have := natRepr_good (m + 1) c h
      omega

theorem pyRemove_pyIntRepr (n : Int) :
    pyRemove ['I', 'D', '='] (pyIntRepr n) = pyIntRepr n :=
  pyRemoveGo_no_I _ _ le_rfl (pyIntRepr_no_I n)

theorem pyRemove_id_eq (l : List Char) (hl : ∀ c ∈ l, ¬ c.toNat = 73) :
    pyRemove ['I', 'D', '='] ('I' :: 'D' :: '=' :: l) = l := by
  have h1 : dropPre ['I', 'D', '='] ('I' :: 'D' :: '=' :: l) = some l := rfl
  show pyRemoveGo ['I', 'D', '='] ('I' :: 'D' :: '=' :: l).length ('I' :: 'D' :: '=' :: l) = l
  have hlen : ('I' :: 'D' :: '=' :: l).length = l.length + 2 + 1 := by simp
  rw [hlen]
  simp only [pyRemoveGo, h1]
  exact pyRemoveGo_no_I (l.length + 2) l (by omega) hl

theorem cogIdOfEntry_num (activated : List String) (n : Int) :
    CogletNet.cogIdOfEntry activated (.jnum n) =
      if 1 ≤ n ∧ n ≤ activated.length then activated.get? (n - 1).toNat else none := by
  unfold CogletNet.cogIdOfEntry
  rw [show pyToStrChars (.jnum n) = pyIntRepr n from rfl, pyRemove_pyIntRepr,
    pyIntOfChars_repr]

theorem cogIdOfEntry_idstr (activated : List String) (n : Int) :
    CogletNet.cogIdOfEntry activated
        (.jstr (String.mk ('I' :: 'D' :: '=' :: pyIntRepr n))) =
      if 1 ≤ n ∧ n ≤ activated.length then activated.get? (n - 1).toNat else none := by
  unfold CogletNet.cogIdOfEntry
  rw [show pyToStrChars (.jstr (String.mk ('I' :: 'D' :: '=' :: pyIntRepr n))) =
      'I' :: 'D' :: '=' :: pyIntRepr n from rfl,
    pyRemove_id_eq _ (pyIntRepr_no_I n), pyIntOfChars_repr]

/-- C6: the response parser returns the canonical empty record (string
fields empty, list fields empty, log the fixed failure marker) whenever
the model output does not parse, is empty, or is not an object, and
never raises; entries of `activated_cog_ids` of the form `ID=<n>` or a
bare integer with `1 ≤ n ≤ len(activated)` translate to the real id of
the n-th activated unit, while out-of-range or non-numeric entries are
dropped without aborting the translation of the remaining entries. -/
theorem C6_parse_response_canonical (activated : List String) :
    CogletNet.parse_response none activated = parseFailRecord ∧
    (∀ v : JVal, jfalsy v = true →
      CogletNet.parse_response (some v) activated = parseFailRecord) ∧
    (∀ v : JVal, (∀ fs, v ≠ .jobj fs) →
      CogletNet.parse_response (some v) activated = parseFailRecord) ∧
    (∀ fs es, jfalsy (.jobj fs) = false →
      jget fs "activated_cog_ids" (.jarr []) = .jarr es →
      CogletNet.parse_response (some (.jobj fs)) activated =
        { next_thought := jget fs "next_thought" (.jstr "")
          activated_cog_ids := es.filterMap (CogletNet.cogIdOfEntry activated)
          log := jget fs "log" (.jstr "")
          generated_cog_texts := jget fs "generated_cog_texts" (.jarr [])
          function_calls := jget fs "function_calls" (.jarr []) }) ∧
    (∀ n : Int, 1 ≤ n → n ≤ activated.length →
      CogletNet.cogIdOfEntry activated (.jnum n) = activated.get? (n - 1).toNat ∧
      CogletNet.cogIdOfEntry activated
          (.jstr (String.mk ('I' :: 'D' :: '=' :: pyIntRepr n))) =
        activated.get? (n - 1).toNat) ∧
    (∀ n : Int, n < 1 ∨ (activated.length : Int) < n →
      CogletNet.cogIdOfEntry activated (.jnum n) = none) ∧
    (∀ (e : JVal) (es : List JVal), CogletNet.cogIdOfEntry activated e = none →
      (e :: es).filterMap (CogletNet.cogIdOfEntry activated) =
        es.filterMap (CogletNet.cogIdOfEntry activated)) := by
  refine ⟨rfl, ?_, ?_, ?_, ?_, ?_, ?_⟩
  · intro v h
    simp [CogletNet.parse_response, h]
  · intro v h
    cases v with
    | jobj fs => exact absurd rfl (h fs)
    | jnull => rfl
    | jbool b => simp only [CogletNet.parse_response]; split <;> rfl
    | jnum n => simp only [CogletNet.parse_response]; split <;> rfl
    | jstr s => simp only [CogletNet.parse_response]; split <;> rfl
    | jarr xs => simp only [CogletNet.parse_response]; split <;> rfl
  · intro fs es hfalsy hids
    simp only [CogletNet.parse_response, hfalsy, Bool.false_eq_true, if_false, hids, pyIter]
  · intro n h1 hlen
    constructor
    · rw [cogIdOfEntry_num, if_pos ⟨h1, hlen⟩]
    · rw [cogIdOfEntry_idstr, if_pos ⟨h1, hlen⟩]
  · intro n h
    rw [cogIdOfEntry_num, if_neg]
    rintro ⟨ha, hb⟩
    rcases h with h | h <;> omega
  · intro e es h
    simp [List.filterMap_cons, h]

/-- Witness for C6: the spec's example — `["ID=1", 99]` against two
activated units translates to just the first real id, and unparseable
output yields the canonical empty record. -/
theorem C6_parse_response_canonical_witness :
    CogletNet.parse_response
        (some (.jobj [("activated_cog_ids", .jarr [.jstr "ID=1", .jnum 99]),
          ("next_thought", .jstr "x")])) ["idA", "idB"] =
      { next_thought := .jstr "x"
        activated_cog_ids := ["idA"]
        log := .jstr ""
        generated_cog_texts := .jarr []
        function_calls := .jarr [] } ∧
    CogletNet.parse_response none ["idA", "idB"] = parseFailRecord :=
  ⟨by
    have h := (C6_parse_response_canonical ["idA", "idB"]).2.2.2.1
      [("activated_cog_ids", .jarr [.jstr "ID=1", .jnum 99]), ("next_thought", .jstr "x")]
      [.jstr "ID=1", .jnum 99] rfl rfl
    rw [h]
    rfl,
   (C6_parse_response_canonical ["idA", "idB"]).1⟩

theorem think_loop_go_length_le (think : Nat → JVal → ThinkRecord) :
    ∀ (fuel k : Nat) (cur : JVal),
      (CogletNet.think_loop_go think k fuel cur).length ≤ fuel := by
  intro fuel
  induction fuel with
  | zero => intro k cur; simp [CogletNet.think_loop_go]
  | succ fuel ih =>
    intro k cur
    simp only [CogletNet.think_loop_go]
    split
    · simp
    · simpa using ih (k + 1) _

theorem think_loop_go_head (think : Nat → JVal → ThinkRecord) :
    ∀ (fuel k : Nat) (cur : JVal), 1 ≤ fuel →
      (CogletNet.think_loop_go think k fuel cur).getD 0 parseFailRecord =
        think k cur ∧
      1 ≤ (CogletNet.think_loop_go think k fuel cur).length := by
  intro fuel k cur h1
  cases fuel with
  | zero => omega
  | succ fuel =>
    simp only [CogletNet.think_loop_go]
    split
    · simp
    · simp

theorem think_loop_go_length_eq (think : Nat → JVal → ThinkRecord)
    (h : ∀ k v, jfalsy (think k v).next_thought = false) :
    ∀ (fuel k : Nat) (cur : JVal),
      (CogletNet.think_loop_go think k fuel cur).length = fuel := by
  intro fuel
  induction fuel with
  | zero => intro k cur; rfl
  | succ fuel ih =>
    intro k cur
    simp only [CogletNet.think_loop_go, h k cur, Bool.false_eq_true, if_false,
      List.length_cons, ih (k + 1)]

theorem think_loop_go_chain (think : Nat → JVal → ThinkRecord) :
    ∀ (fuel k : Nat) (cur : JVal) (j : Nat),
      j + 1 < (CogletNet.think_loop_go think k fuel cur).length →
      jfalsy ((CogletNet.think_loop_go think k fuel cur).getD j
        parseFailRecord).next_thought = false ∧
      (CogletNet.think_loop_go think k fuel cur).getD (j + 1) parseFailRecord =
        think (k + j + 1)
          (((CogletNet.think_loop_go think k fuel cur).getD j
            parseFailRecord).next_thought) := by
  intro fuel
  induction fuel with
  | zero => intro k cur j hj; simp [CogletNet.think_loop_go] at hj
  | succ fuel ih =>
    intro k cur j hj
    simp only [CogletNet.think_loop_go] at hj ⊢
    rcases hf : jfalsy (think k cur).next_thought with _ | _
    · simp only [hf, Bool.false_eq_true, if_false] at hj ⊢
      cases j with
      | zero =>
        simp only [List.getD_cons_zero, List.getD_cons_succ]
        refine ⟨hf, ?_⟩
        have hlen : 1 ≤ (CogletNet.think_loop_go think (k + 1) fuel
            (think k cur).next_thought).length := by
          simp only [List.length_cons] at hj
          omega
        have hfuel : 1 ≤ fuel := by
          have := think_loop_go_length_le think fuel (k + 1) (think k cur).next_thought
          omega
        exact ((think_loop_go_head think fuel (k + 1) _ hfuel).1).symm ▸ rfl
      | succ j =>
        simp only [List.getD_cons_succ]
        have hj' : j + 1 < (CogletNet.think_loop_go think (k + 1) fuel
            (think k cur).next_thought).length := by
          simp only [List.length_cons] at hj
          omega
        have := ih (k + 1) (think k cur).next_thought j hj'
        refine ⟨this.1, ?_⟩
        have harith : k + 1 + j + 1 = k + (j + 1) + 1 := by omega
        rw [← harith]
        exact this.2
    · simp [hf] at hj

theorem think_loop_go_stop (think : Nat → JVal → ThinkRecord) :
    ∀ (fuel k : Nat) (cur : JVal) (j : Nat),
      j < (CogletNet.think_loop_go think k fuel cur).length →
      jfalsy ((CogletNet.think_loop_go think k fuel cur).getD j
        parseFailRecord).next_thought = true →
      j + 1 = (CogletNet.think_loop_go think k fuel cur).length := by
  intro fuel
  induction fuel with
  | zero => intro k cur j hj _; simp [CogletNet.think_loop_go] at hj
  | succ fuel ih =>
    intro k cur j hj hstop
    simp only [CogletNet.think_loop_go] at hj hstop ⊢
    rcases hf : jfalsy (think k cur).next_thought with _ | _
    · simp only [hf, Bool.false_eq_true, if_false] at hj hstop ⊢
      cases j with
      | zero =>
        simp only [List.getD_cons_zero] at hstop
        rw [hf] at hstop
        exact absurd hstop (by simp)
      | succ j =>
        simp only [List.getD_cons_succ] at hstop
        simp only [List.length_cons] at hj ⊢
        have := ih (k + 1) (think k cur).next_thought j (by omega) hstop
        omega
    · simp only [hf, if_true] at hj hstop ⊢
      simp only [List.length_cons, List.length_nil] at hj ⊢
      omega

/-- C7: `think_loop` runs at most `max_iterations` cycles, returns [] for
`max_iterations = 0` and at least one record otherwise (the first cycle
consuming the initial input); it returns exactly `max_iterations` records
when every cycle produces a non-empty `next_thought`; each non-final
record has a non-empty `next_thought`, which is fed as the input of the
following cycle; and a record with empty `next_thought` is always the
last one returned (the terminating record is included). -/
theorem C7_think_loop_terminates (think : Nat → JVal → ThinkRecord)
    (input_text : JVal) (max_iterations : Nat) :
    (CogletNet.think_loop think input_text max_iterations).length ≤ max_iterations ∧
    (max_iterations = 0 →
      CogletNet.think_loop think input_text max_iterations = []) ∧
    (1 ≤ max_iterations →
      1 ≤ (CogletNet.think_loop think input_text max_iterations).length ∧
      (CogletNet.think_loop think input_text max_iterations).getD 0 parseFailRecord =
        think 0 input_text) ∧
    ((∀ k v, jfalsy (think k v).next_thought = false) →
      (CogletNet.think_loop think input_text max_iterations).length = max_iterations) ∧
    (∀ j, j + 1 < (CogletNet.think_loop think input_text max_iterations).length →
      jfalsy ((CogletNet.think_loop think input_text max_iterations).getD j
        parseFailRecord).next_thought = false ∧
      (CogletNet.think_loop think input_text max_iterations).getD (j + 1)
          parseFailRecord =
        think (j + 1)
          (((CogletNet.think_loop think input_text max_iterations).getD j
            parseFailRecord).next_thought)) ∧
    (∀ j, j < (CogletNet.think_loop think input_text max_iterations).length →
      jfalsy ((CogletNet.think_loop think input_text max_iterations).getD j
        parseFailRecord).next_thought = true →
      j + 1 = (CogletNet.think_loop think input_text max_iterations).length) := by
  refine ⟨think_loop_go_length_le think max_iterations 0 input_text,
    ?_, ?_, ?_, ?_, ?_⟩
  · intro h0
    subst h0
    rfl
  · intro h1
    exact ⟨(think_loop_go_head think max_iterations 0 input_text h1).2,
      (think_loop_go_head think max_iterations 0 input_text h1).1⟩
  · intro h
    exact think_loop_go_length_eq think h max_iterations 0 input_text
  · intro j hj
    have := think_loop_go_chain think max_iterations 0 input_text j hj
    simpa using this
  · intro j hj hstop
    exact think_loop_go_stop think max_iterations 0 input_text j hj hstop

/-- Witness for C7: with a completion that always produces a non-empty
`next_thought`, `max_iterations = 2` yields exactly 2 records; when the
first cycle's `next_thought` is empty, exactly 1 record is produced. -/
theorem C7_think_loop_terminates_witness :
    (CogletNet.think_loop
      (fun _ _ => ⟨.jstr "go", [], .jstr "", .jarr [], .jarr []⟩)
      (.jstr "q") 2).length = 2 ∧
    (CogletNet.think_loop
      (fun _ _ => ⟨.jstr "", [], .jstr "", .jarr [], .jarr []⟩)
      (.jstr "q") 2).length = 1 :=
  ⟨by
    have h := (C7_think_loop_terminates
      (fun _ _ => ⟨.jstr "go", [], .jstr "", .jarr [], .jarr []⟩)
      (.jstr "q") 2).2.2.2.1 (fun k v => by decide)
    exact h,
   by decide⟩

/-- C8 (amended): `search_similar` retries the query once after a delay
when the first attempt returns no results, and returns an empty result
set (hence `recall` an empty activation set) when both attempts return
nothing — without raising; a transport-level error from the similarity
service is caught inside `search_similar` (logged, empty list returned),
so it does NOT propagate to the caller of `recall`: `recall` never
raises at all. -/
theorem C8_recall_error_handling (mam : MAM) (jloads : String → Option JVal)
    (queryAttempt : Nat → Except String (List QueryHit)) :
    (∃ l a, Coglets.recall mam jloads queryAttempt = .ok (l, a)) ∧
    (queryAttempt 0 = .ok [] → queryAttempt 1 = .ok [] →
      Coglets.recall mam jloads queryAttempt = .ok ([], [])) ∧
    (∀ e, queryAttempt 0 = .error e →
      Coglets.recall mam jloads queryAttempt = .ok ([], [])) ∧
    (∀ hits, queryAttempt 0 = .ok hits → ¬ hits.isEmpty →
      VectorStore.search_similar jloads queryAttempt =
        .ok (hits.map (VectorStore.toSearchResult jloads))) := by
  refine ⟨?_, ?_, ?_, ?_⟩
  · unfold Coglets.recall VectorStore.search_similar
    rcases queryAttempt 0 with e | r0
    · exact ⟨[], [], rfl⟩
    · by_cases h0 : r0.isEmpty
      · simp only [h0, if_true]
        rcases queryAttempt 1 with e | r1
        · exact ⟨[], [], rfl⟩
        · exact ⟨_, _, rfl⟩
      · simp only [h0, if_false]
        exact ⟨_, _, rfl⟩
  · intro h0 h1
    unfold Coglets.recall VectorStore.search_similar
    rw [h0, h1]
    simp [MAM.select_activated_memories]
  · intro e h0
    unfold Coglets.recall VectorStore.search_similar
    rw [h0]
    simp [MAM.select_activated_memories]
  · intro hits h0 hne
    unfold VectorStore.search_similar
    rw [h0]
    simp [hne]

/-- Counterexample to C8 as stated: a transport-level error from the
similarity service does not propagate to the caller of `recall`; it is
swallowed and an empty result/activation pair is returned. -/
theorem C8_recall_error_handling_counterexample :
    Coglets.recall MAM.default (fun _ => none)
      (fun _ => .error "connection refused") = .ok ([], []) := rfl

/-- Witness for C8 (amended): both attempts empty yields the empty
ok-result. -/
theorem C8_recall_error_handling_witness :
    Coglets.recall MAM.default (fun _ => none) (fun _ => .ok []) =
      .ok ([], []) :=
  (C8_recall_error_handling MAM.default (fun _ => none) (fun _ => .ok [])).2.1
    rfl rfl

theorem update_weight_fst (mam : MAM) (store : String → Option CogMeta)
    (updateOk : String → Bool) (id : String) (t now : ℝ) :
    (Coglets.update_weight mam store updateOk id (some t) now).1 =
      ((store id).isSome && updateOk id) := by
  unfold Coglets.update_weight
  cases store id with
  | none => rfl
  | some md =>
    simp only [Option.isSome_some, Bool.true_and]
    cases updateOk id <;> simp

theorem update_weights_go_fst (mam : MAM) (store : String → Option CogMeta)
    (updateOk : String → Bool) (t now : ℝ) :
    ∀ ids : List String,
      (Coglets.update_weights_go mam store updateOk t now ids).1 =
        ids.filter (fun id => (store id).isSome && updateOk id) := by
  intro ids
  induction ids with
  | nil => rfl
  | cons id rest ih =>
    simp only [Coglets.update_weights_go, update_weight_fst, List.filter_cons]
    rcases h : ((store id).isSome && updateOk id) with _ | _
    · simp [ih]
    · simp [ih]

theorem update_weights_go_snd (mam : MAM) (store : String → Option CogMeta)
    (updateOk : String → Bool) (t now : ℝ) :
    ∀ (ids : List String) (w : String × CogMeta),
      w ∈ (Coglets.update_weights_go mam store updateOk t now ids).2 →
      ∃ md, store w.1 = some md ∧
        w.2 = Coglets.update_weight_meta mam md t := by
  intro ids
  induction ids with
  | nil => intro w hw; simp [Coglets.update_weights_go] at hw
  | cons id rest ih =>
    intro w hw
    simp only [Coglets.update_weights_go, List.mem_append] at hw
    rcases hw with hw | hw
    · unfold Coglets.update_weight at hw
      cases hst : store id with
      | none => rw [hst] at hw; simp at hw
      | some md =>
        rw [hst] at hw
        simp only [Option.getD_some] at hw
        cases hok : updateOk id with
        | true =>
          simp only [hok, if_true, Option.toList_some, List.mem_singleton] at hw
          subst hw
          exact ⟨md, hst, rfl⟩
        | false =>
          simp only [hok, Bool.false_eq_true, if_false, Option.toList_none,
            List.not_mem_nil] at hw
    · exact ih w hw

theorem update_weight_now_irrel (mam : MAM) (store : String → Option CogMeta)
    (updateOk : String → Bool) (id : String) (t now now' : ℝ) :
    Coglets.update_weight mam store updateOk id (some t) now =
      Coglets.update_weight mam store updateOk id (some t) now' := by
  unfold Coglets.update_weight
  cases store id with
  | none => rfl
  | some md => rfl

theorem update_weights_go_now_irrel (mam : MAM) (store : String → Option CogMeta)
    (updateOk : String → Bool) (t now now' : ℝ) :
    ∀ ids : List String,
      Coglets.update_weights_go mam store updateOk t now ids =
        Coglets.update_weights_go mam store updateOk t now' ids := by
  intro ids
  induction ids with
  | nil => rfl
  | cons id rest ih =>
    simp only [Coglets.update_weights_go, ih,
      update_weight_now_irrel mam store updateOk id t now now']

/-- C9: `update_weights` captures one wall-clock snapshot for the whole
batch — every weight computation and every persisted `last_access` uses
it, and the result does not depend on any later clock sample; a failed
per-id update is skipped and the remaining ids are still processed, the
returned list being exactly the successful sub-list of the input ids in
input order. -/
theorem C9_update_weights_batch (mam : MAM) (store : String → Option CogMeta)
    (updateOk : String → Bool) (coglet_ids : List String)
    (current_time : Option ℝ) (nows : Nat → ℝ) :
    (Coglets.update_weights mam store updateOk coglet_ids current_time nows).1 =
      coglet_ids.filter (fun id => (store id).isSome && updateOk id) ∧
    (∀ w ∈ (Coglets.update_weights mam store updateOk coglet_ids
        current_time nows).2,
      ∃ md, store w.1 = some md ∧
        w.2 = Coglets.update_weight_meta mam md (current_time.getD (nows 0)) ∧
        w.2.last_access = current_time.getD (nows 0)) ∧
    (∀ nows' : Nat → ℝ, nows' 0 = nows 0 →
      Coglets.update_weights mam store updateOk coglet_ids current_time nows' =
        Coglets.update_weights mam store updateOk coglet_ids current_time nows) := by
  refine ⟨update_weights_go_fst mam store updateOk _ _ coglet_ids, ?_, ?_⟩
  · intro w hw
    obtain ⟨md, hst, hmeta⟩ :=
      update_weights_go_snd mam store updateOk _ _ coglet_ids w hw
    exact ⟨md, hst, hmeta, by rw [hmeta]; rfl⟩
  · intro nows' h0
    unfold Coglets.update_weights
    rw [h0]
    exact update_weights_go_now_irrel mam store updateOk _ _ _ coglet_ids

/-- Witness for C9: a batch over a store holding only id "a" succeeds
exactly on the occurrences of "a", in input order. -/
theorem C9_update_weights_batch_witness :
    (Coglets.update_weights MAM.default
      (fun id => if id = "a" then some ⟨1, 0, 0⟩ else none)
      (fun _ => true) ["a", "b", "a"] none (fun _ => 0)).1 = ["a", "a"] := by
  rw [(C9_update_weights_batch MAM.default
    (fun id => if id = "a" then some ⟨1, 0, 0⟩ else none)
    (fun _ => true) ["a", "b", "a"] none (fun _ => 0)).1]
  simp [List.filter]

theorem add_stored_user_value (mam : MAM) (set_id created now_iso : String)
    (md : MDict) (k : String) (v : MVal) (h : md k = some v) :
    VectorStore.add_coglet_metadata set_id created
      (Coglets.add_user_metadata mam now_iso md) k = some v := by
  simp [VectorStore.add_coglet_metadata, Coglets.add_user_metadata, h]

theorem add_stored_weight_default (mam : MAM) (set_id created now_iso : String)
    (md : MDict) (h : md "weight" = none) :
    VectorStore.add_coglet_metadata set_id created
      (Coglets.add_user_metadata mam now_iso md) "weight" =
      some (MVal.mnum mam.initial_weight) := by
  simp [VectorStore.add_coglet_metadata, Coglets.add_user_metadata, h]

theorem add_stored_access_count_default (mam : MAM) (set_id created now_iso : String)
    (md : MDict) (h : md "access_count" = none) :
    VectorStore.add_coglet_metadata set_id created
      (Coglets.add_user_metadata mam now_iso md) "access_count" =
      some (MVal.mnum 0) := by
  simp [VectorStore.add_coglet_metadata, Coglets.add_user_metadata, h]

theorem add_stored_last_access_default (mam : MAM) (set_id created now_iso : String)
    (md : MDict) (h : md "last_access" = none) :
    VectorStore.add_coglet_metadata set_id created
      (Coglets.add_user_metadata mam now_iso md) "last_access" =
      some (MVal.mstr now_iso) := by
  simp [VectorStore.add_coglet_metadata, Coglets.add_user_metadata, h]

theorem add_batch_go_get? (mam : MAM) (set_id : String) (nows : Nat → String)
    (total : Nat) :
    ∀ (xs : List (String × MDict)) (i j : Nat),
      (Coglets.add_batch_go mam set_id nows total i xs).get? j =
        (xs.get? j).map (fun item =>
          VectorStore.add_coglet set_id item.1
            (Coglets.add_user_metadata mam (nows (i + j)) item.2)
            (nows (total + (i + j)))) := by
  intro xs
  induction xs with
  | nil => intro i j; simp [Coglets.add_batch_go]
  | cons x xs ih =>
    intro i j
    cases j with
    | zero => simp [Coglets.add_batch_go]
    | succ j =>
      simp only [Coglets.add_batch_go, List.get?_cons_succ, ih (i + 1) j]
      have h1 : i + 1 + j = i + (j + 1) := by omega
      rw [h1]

/-- C10: a new unit is persisted with default metadata
`weight = initial_weight` (not `initial_weight - b`), `access_count = 0`
and `last_access` the creation-time wall-clock sample, both by
`Coglets.add` and per item of `Coglets.add_batch`; a caller-supplied
metadata value for any of these keys silently overrides the default. -/
theorem C10_add_default_metadata (mam : MAM) (set_id content : String)
    (metadata : MDict) (nows : Nat → String) :
    (Coglets.add mam set_id content metadata nows).1 = vector_id set_id content ∧
    (metadata "weight" = none →
      (Coglets.add mam set_id content metadata nows).2.2 "weight" =
        some (MVal.mnum mam.initial_weight)) ∧
    (metadata "access_count" = none →
      (Coglets.add mam set_id content metadata nows).2.2 "access_count" =
        some (MVal.mnum 0)) ∧
    (metadata "last_access" = none →
      (Coglets.add mam set_id content metadata nows).2.2 "last_access" =
        some (MVal.mstr (nows 0))) ∧
    (∀ k v, metadata k = some v →
      (Coglets.add mam set_id content metadata nows).2.2 k = some v) ∧
    (∀ (items : List (String × MDict)) (i : Nat) (item : String × MDict),
      items.get? i = some item →
      ∃ r, (Coglets.add_batch mam set_id items nows).get? i = some r ∧
        r.1 = vector_id set_id item.1 ∧
        (item.2 "weight" = none →
          r.2.2 "weight" = some (MVal.mnum mam.initial_weight)) ∧
        (item.2 "access_count" = none → r.2.2 "access_count" = some (MVal.mnum 0)) ∧
        (item.2 "last_access" = none →
          r.2.2 "last_access" = some (MVal.mstr (nows i))) ∧
        (∀ k v, item.2 k = some v → r.2.2 k = some v)) := by
  refine ⟨rfl,
    fun h => add_stored_weight_default mam set_id (nows 1) (nows 0) metadata h,
    fun h => add_stored_access_count_default mam set_id (nows 1) (nows 0) metadata h,
    fun h => add_stored_last_access_default mam set_id (nows 1) (nows 0) metadata h,
    fun k v h => add_stored_user_value mam set_id (nows 1) (nows 0) metadata k v h,
    ?_⟩
  intro items i item hi
  refine ⟨VectorStore.add_coglet set_id item.1
    (Coglets.add_user_metadata mam (nows i) item.2) (nows (items.length + i)),
    ?_, rfl,
    fun h => add_stored_weight_default mam set_id _ (nows i) item.2 h,
    fun h => add_stored_access_count_default mam set_id _ (nows i) item.2 h,
    fun h => add_stored_last_access_default mam set_id _ (nows i) item.2 h,
    fun k v h => add_stored_user_value mam set_id _ (nows i) item.2 k v h⟩
  unfold Coglets.add_batch
  rw [add_batch_go_get? mam set_id nows items.length items 0 i, hi]
  simp

/-- Witness for C10: with no caller metadata the stored `weight` is the
configured `initial_weight` (0.5, not 0.45) and `access_count` is 0;
a caller-supplied `weight` of 5 silently overrides the default, storing
a weight outside [0.0, 1.0]. -/
theorem C10_add_default_metadata_witness :
    (Coglets.add MAM.default "s" "c" (fun _ => none) (fun _ => "T0")).2.2
        "weight" = some (MVal.mnum (1/2)) ∧
    (Coglets.add MAM.default "s" "c" (fun _ => none) (fun _ => "T0")).2.2
        "access_count" = some (MVal.mnum 0) ∧
    (Coglets.add MAM.default "s" "c"
        (fun k => if k = "weight" then some (MVal.mnum 5) else none)
        (fun _ => "T0")).2.2 "weight" = some (MVal.mnum 5) ∧
    ¬ ((5 : ℚ) ≤ 1) :=
  ⟨(C10_add_default_metadata MAM.default "s" "c" (fun _ => none)
      (fun _ => "T0")).2.1 rfl,
   (C10_add_default_metadata MAM.default "s" "c" (fun _ => none)
      (fun _ => "T0")).2.2.1 rfl,
   (C10_add_default_metadata MAM.default "s" "c"
      (fun k => if k = "weight" then some (MVal.mnum 5) else none)
      (fun _ => "T0")).2.2.2.2.1 "weight" (MVal.mnum 5) (by simp),
   by norm_num⟩
